import Mathlib

/-!
# A shallow embedding of the SGLD optimizer (src/devinterp/optim/sgld.py)

Tensors are modelled as flat lists of exact scalars drawn from a linear
ordered field (instantiated at `ℚ` for concrete evaluation and at `ℝ`
where the `lr ** 0.5` real power matters).  In-place tensor mutation
becomes explicit state passing; `torch.normal` becomes a draw oracle
passed to `step`, indexed by the order of the calls made during the step;
Python's `x ** 0.5` becomes an explicit power function argument `rh`
(instantiated with `fun x => x ^ ((1 : ℝ) / 2)` where the claim is about
the exponent itself).  A `KeyError` on a missing `initial_param` entry is
modelled by `Option`: `step` returns `none` exactly when the Python code
would raise.
-/

namespace SGLDModel

/-- A tensor, modelled as the flat list of its elements. -/
abbrev Tensor (α : Type) := List α

/-- `zipWith` over three lists, truncating to the shortest. -/
def zipWith3 {α β γ δ : Type} (f : α → β → γ → δ) : List α → List β → List γ → List δ
  | a :: as, b :: bs, c :: cs => f a b c :: zipWith3 f as bs cs
  | _, _, _ => []

/-- The per-group configuration of `SGLD.__init__` (its `defaults` dict):
`bounding_box_size` is `Option` because its Python default is `None`. -/
structure GroupCfg (α : Type) where
  lr : α
  noise_level : α
  weight_decay : α
  localization : α
  temperature : α
  bounding_box_size : Option α
  deriving DecidableEq, Repr

/-- A parameter tensor together with its (optional) gradient, as seen by
`step` through `p.data` and `p.grad`. -/
structure Param (α : Type) where
  data : Tensor α
  grad : Option (Tensor α)
  deriving DecidableEq, Repr

/-- One entry of `self.param_groups`. -/
structure ParamGroup (α : Type) where
  cfg : GroupCfg α
  params : List (Param α)
  deriving DecidableEq, Repr

/-- The optimizer object: `param_groups`, the per-parameter state store
`self.state` (positionally aligned with the groups and their parameters,
holding the captured `initial_param` anchors), `save_noise`, and the
`self.noise` attribute (`none` models Python `None`). -/
structure SGLD (α : Type) where
  param_groups : List (ParamGroup α)
  state : List (List (Option (Tensor α)))
  save_noise : Bool
  noise : Option (List (Tensor α))
  deriving DecidableEq, Repr

/-- The two construction-time warnings `SGLD.__init__` can emit. -/
inductive SGLDWarning
  | noiseLevelNeOne
  | temperatureEqOne
  deriving DecidableEq, Repr

variable {α : Type} [LinearOrderedField α]

/-- Python's `x != 0` on an optional number: `None != 0` evaluates to `True`. -/
def pyNeZero (b : Option α) : Bool :=
  match b with
  | none => true
  | some x => decide (x ≠ 0)

/-- The warnings emitted by `SGLD.__init__` (lines 67-74): one if
`noise_level != 1.0`, one if `temperature == 1.0`, in that order. -/
def initWarnings (noise_level temperature : α) : List SGLDWarning :=
  (if noise_level ≠ 1 then [SGLDWarning.noiseLevelNeOne] else []) ++
  (if temperature = 1 then [SGLDWarning.temperatureEqOne] else [])

/-- The anchor capture of `SGLD.__init__` (lines 87-92): for each group
with `localization != 0 or bounding_box_size != 0` (Python semantics:
`None != 0` is `True`), store a copy of every parameter's current data as
`initial_param`; otherwise the group's state entries stay empty. -/
def initState (groups : List (ParamGroup α)) : List (List (Option (Tensor α))) :=
  groups.map (fun g =>
    if g.cfg.localization ≠ 0 ∨ pyNeZero g.cfg.bounding_box_size = true then
      g.params.map (fun p => some p.data)
    else
      g.params.map (fun _ => none))

/-- The optimizer built by `SGLD.__init__` from the resolved parameter
groups: `self.save_noise` is set, `self.noise` is set to `None`, and the
anchors are captured per `initState`. -/
def sgldInit (groups : List (ParamGroup α)) (save_noise : Bool) : SGLD α :=
  SGLD.mk groups (initState groups) save_noise none

/-- The Python default configuration of `SGLD.__init__`:
`lr=0.01, noise_level=1.0, weight_decay=0.0, localization=0.0,
temperature=1.0, bounding_box_size=None`. -/
def defaultCfg : GroupCfg α :=
  GroupCfg.mk (1 / 100) 1 0 0 1 none

/-- Lines 101-108 of `step`: the additive build-up of `dw` for one
parameter with gradient `g` and data `v` — gradient term
`p.grad.data * temperature`, then `dw.add_(p.data, alpha=weight_decay)`
when `weight_decay != 0`, then
`dw.add_(p.data - initial_param, alpha=localization)` when
`localization != 0`, the last reading the anchor and failing like the
Python `KeyError` when it is absent. -/
def dwOf (cfg : GroupCfg α) (v g : Tensor α) (anc : Option (Tensor α)) :
    Option (Tensor α) :=
  let dw0 := g.map (fun x => x * cfg.temperature)
  let dw1 := if cfg.weight_decay ≠ 0
    then List.zipWith (fun w x => w + cfg.weight_decay * x) dw0 v
    else dw0
  if cfg.localization ≠ 0 then
    match anc with
    | none => none
    | some a => some (zipWith3 (fun w x y => w + cfg.localization * (x - y)) dw1 v a)
  else some dw1

/-- Lines 101-118 of `step`, for one parameter with gradient `g`:
build `dw`, apply the drift `p.data.add_(dw, alpha=-0.5*lr)`, draw
`torch.normal(mean=0.0, std=noise_level, size=dw.size())` from the
oracle `d`, and apply it with `alpha = rh lr` (Python `lr ** 0.5`).
Returns the updated (pre-clamp) data together with the drawn noise. -/
def sgldPreClamp (cfg : GroupCfg α) (rh : α → α) (d : α → α → Nat → Tensor α)
    (v g : Tensor α) (anc : Option (Tensor α)) : Option (Tensor α × Tensor α) :=
  match dwOf cfg v g anc with
  | none => none
  | some dw =>
    let v1 := List.zipWith (fun x w => x + -(1 / 2 * cfg.lr) * w) v dw
    let noise := d 0 cfg.noise_level dw.length
    let v2 := List.zipWith (fun x n => x + rh cfg.lr * n) v1 noise
    some (v2, noise)

/-- Lines 120-126 of `step`: if `bounding_box_size` is truthy (set and
non-zero), clamp the data elementwise to
`[initial_param - size, initial_param + size]` (`torch.clamp_` applies
the lower bound first, then the upper bound); reading a missing anchor
fails like the Python `KeyError`. -/
def sgldClamp (cfg : GroupCfg α) (anc : Option (Tensor α)) (v2 : Tensor α) :
    Option (Tensor α) :=
  match cfg.bounding_box_size with
  | none => some v2
  | some b =>
    if b ≠ 0 then
      match anc with
      | none => none
      | some a => some (List.zipWith (fun x y => min (max x (y - b)) (y + b)) v2 a)
    else some v2

/-- The whole per-parameter body of `step` for a parameter with a
gradient: drift and noise, then the optional bounding-box clamp. -/
def sgldParamStep (cfg : GroupCfg α) (rh : α → α) (d : α → α → Nat → Tensor α)
    (v g : Tensor α) (anc : Option (Tensor α)) : Option (Tensor α × Tensor α) :=
  match sgldPreClamp cfg rh d v g anc with
  | none => none
  | some (v2, noise) =>
    match sgldClamp cfg anc v2 with
    | none => none
    | some v3 => some (v3, noise)

/-- The loop over one group's parameters (paired with their state
entries): parameters without a gradient are skipped unchanged, the rest
are updated by `sgldParamStep`.  The counter `k` indexes the successive
draws from the process-wide generator; the returned list collects the
drawn noise tensors in processing order. -/
def stepParams (cfg : GroupCfg α) (rh : α → α) (draw : Nat → α → α → Nat → Tensor α) :
    List (Param α × Option (Tensor α)) → Nat →
    Option (List (Param α) × List (Tensor α) × Nat)
  | [], k => some ([], [], k)
  | (p, anc) :: rest, k =>
    match p.grad with
    | none =>
      match stepParams cfg rh draw rest k with
      | none => none
      | some (ps, ns, k2) => some (p :: ps, ns, k2)
    | some g =>
      match sgldParamStep cfg rh (draw k) p.data g anc with
      | none => none
      | some (v3, nz) =>
        match stepParams cfg rh draw rest (k + 1) with
        | none => none
        | some (ps, ns, k2) => some (Param.mk v3 p.grad :: ps, nz :: ns, k2)

/-- The loop over the parameter groups, threading the draw counter and
concatenating the per-group noise logs. -/
def stepGroups (rh : α → α) (draw : Nat → α → α → Nat → Tensor α) :
    List (ParamGroup α × List (Option (Tensor α))) → Nat →
    Option (List (ParamGroup α) × List (Tensor α) × Nat)
  | [], k => some ([], [], k)
  | (g, st) :: rest, k =>
    match stepParams g.cfg rh draw (g.params.zip st) k with
    | none => none
    | some (ps, ns, k1) =>
      match stepGroups rh draw rest k1 with
      | none => none
      | some (gs, ns2, k2) => some (ParamGroup.mk g.cfg ps :: gs, ns ++ ns2, k2)

/-- `SGLD.step` (lines 94-126): `self.noise` is reset to a fresh list,
every parameter with a gradient is updated in place, and the noise log
holds the drawn tensors exactly when `save_noise` is set.  The state
store is never written.  `none` models the Python call raising. -/
def SGLD.step (rh : α → α) (draw : Nat → α → α → Nat → Tensor α) (o : SGLD α) :
    Option (SGLD α) :=
  match stepGroups rh draw (o.param_groups.zip o.state) 0 with
  | none => none
  | some (gs, ns, _) =>
    some (SGLD.mk gs o.state o.save_noise (some (if o.save_noise then ns else [])))

/-- `n` successive `step()` calls, each with its own slice of the draw
oracle (`draws i` serves the `i`-th remaining step). -/
def SGLD.steps (rh : α → α) (draws : Nat → Nat → α → α → Nat → Tensor α) :
    Nat → SGLD α → Option (SGLD α)
  | 0, o => some o
  | n + 1, o =>
    match SGLD.step rh (draws 0) o with
    | none => none
    | some o1 => SGLD.steps rh (fun i => draws (i + 1)) n o1

/-- The draw oracle returning the zero tensor of the requested size: the
test seam that disables noise injection. -/
def zeroDraw : Nat → α → α → Nat → Tensor α :=
  fun _ _ _ n => List.replicate n 0

/-- Number of parameters of the optimizer that currently carry a
gradient (those `step` updates). -/
def SGLD.gradParamCount (o : SGLD α) : Nat :=
  (o.param_groups.map (fun g => (g.params.filter (fun p => p.grad.isSome)).length)).sum

/-- The torch floating-point dtypes relevant to the noise draw. -/
inductive DType
  | float16
  | float32
  | float64
  deriving DecidableEq, Repr

/-- Shape/device/dtype metadata of a tensor: the aspects of the
`torch.normal` call that the flat value model does not carry. -/
structure TensorMeta (Device : Type) where
  size : Nat
  device : Device
  dtype : DType
  deriving DecidableEq, Repr

/-- Metadata of the tensor built by the `torch.normal` call at lines
113-115: the code forwards `size=dw.size()` and `device=dw.device`, but
passes no `dtype`, so per torch's documented semantics for a call with
float `mean`/`std` and no `dtype` argument the result carries the
process default dtype (`torch.get_default_dtype()`), whatever the dtype
of `dw` (and hence of the parameter) is. -/
def normalCallMeta {Device : Type} (defaultDType : DType) (dw : TensorMeta Device) :
    TensorMeta Device :=
  TensorMeta.mk dw.size dw.device defaultDType

theorem zipWith3_length {β γ δ ε : Type} (f : β → γ → δ → ε) :
    ∀ (a : List β) (b : List γ) (c : List δ),
      (zipWith3 f a b c).length = min a.length (min b.length c.length)
  | [], b, c => by cases b <;> cases c <;> simp [zipWith3]
  | _ :: _, [], c => by cases c <;> simp [zipWith3]
  | _ :: _, _ :: _, [] => by simp [zipWith3]
  | x :: xs, y :: ys, z :: zs => by
      simp only [zipWith3, List.length_cons, zipWith3_length f xs ys zs]
      omega

theorem getElem_zipWith3 {β γ δ ε : Type} (f : β → γ → δ → ε)
    (xs : List β) (ys : List γ) (zs : List δ) (i : Nat)
    (h1 : i < xs.length) (h2 : i < ys.length) (h3 : i < zs.length)
    (h : i < (zipWith3 f xs ys zs).length) :
    (zipWith3 f xs ys zs)[i] = f xs[i] ys[i] zs[i] := by
  induction xs generalizing ys zs i with
  | nil => simp at h1
  | cons x xt ih =>
    cases ys with
    | nil => simp at h2
    | cons y yt =>
      cases zs with
      | nil => simp at h3
      | cons z zt =>
        cases i with
        | zero => rfl
        | succ i =>
          simp only [zipWith3, List.getElem_cons_succ]
          exact ih yt zt i (by simpa using h1) (by simpa using h2) (by simpa using h3)
            (by simpa [zipWith3] using h)

/-- `dw` built by lines 101-108 is, elementwise,
`grad * temperature + weight_decay * value + localization * (value - anchor)`
(the skipped `if` branches contribute a zero coefficient), whenever the
anchor is available in the cases that read it. -/
theorem dwOf_eq (cfg : GroupCfg α) (v g a : Tensor α) (anc : Option (Tensor α))
    (ha : cfg.localization = 0 ∨ anc = some a)
    (hg : g.length = v.length) (hal : a.length = v.length) :
    ∃ dw : Tensor α, dwOf cfg v g anc = some dw ∧ dw.length = v.length ∧
      ∀ (i : Nat) (hi : i < v.length) (hid : i < dw.length)
        (hig : i < g.length) (hia : i < a.length),
        dw[i] = g[i] * cfg.temperature + cfg.weight_decay * v[i]
          + cfg.localization * (v[i] - a[i]) := by
  by_cases hloc : cfg.localization = 0
  · by_cases hwd : cfg.weight_decay = 0
    · refine ⟨g.map (fun x => x * cfg.temperature), ?_, by simpa using hg, ?_⟩
      · simp [dwOf, hloc, hwd]
      · intro i hi hid hig hia
        rw [List.getElem_map, hloc, hwd]
        ring
    · refine ⟨List.zipWith (fun w x => w + cfg.weight_decay * x)
        (g.map (fun x => x * cfg.temperature)) v, ?_, ?_, ?_⟩
      · simp [dwOf, hloc, hwd]
      · simp only [List.length_zipWith, List.length_map]
        omega
      · intro i hi hid hig hia
        rw [List.getElem_zipWith, List.getElem_map, hloc]
        ring
  · rcases ha with ha | ha
    · exact absurd ha hloc
    · subst ha
      by_cases hwd : cfg.weight_decay = 0
      · refine ⟨zipWith3 (fun w x y => w + cfg.localization * (x - y))
          (g.map (fun x => x * cfg.temperature)) v a, ?_, ?_, ?_⟩
        · simp [dwOf, hloc, hwd]
        · simp only [zipWith3_length, List.length_map]
          omega
        · intro i hi hid hig hia
          rw [getElem_zipWith3 _ _ _ _ _ (by simpa using hig) hi hia hid,
            List.getElem_map, hwd]
          ring
      · refine ⟨zipWith3 (fun w x y => w + cfg.localization * (x - y))
          (List.zipWith (fun w x => w + cfg.weight_decay * x)
            (g.map (fun x => x * cfg.temperature)) v) v a, ?_, ?_, ?_⟩
        · simp [dwOf, hloc, hwd]
        · simp only [zipWith3_length, List.length_zipWith, List.length_map]
          omega
        · intro i hi hid hig hia
          rw [getElem_zipWith3 _ _ _ _ _
              (by simp [List.length_zipWith]; omega) hi hia hid,
            List.getElem_zipWith, List.getElem_map]

/-- Lines 101-118 in closed form: under shape agreement, the pre-clamp
update is the drift applied to the data followed by the scaled noise
drawn with mean `0`, standard deviation `noise_level`, and the size of
`dw` (which equals the size of the data). -/
theorem sgldPreClamp_eq (cfg : GroupCfg α) (rh : α → α) (d : α → α → Nat → Tensor α)
    (v g a : Tensor α) (anc : Option (Tensor α))
    (ha : cfg.localization = 0 ∨ anc = some a)
    (hg : g.length = v.length) (hal : a.length = v.length) :
    sgldPreClamp cfg rh d v g anc =
      some (List.zipWith (fun x n => x + rh cfg.lr * n)
              (zipWith3 (fun x gx ax =>
                x - 1 / 2 * cfg.lr * (gx * cfg.temperature + cfg.weight_decay * x
                  + cfg.localization * (x - ax))) v g a)
              (d 0 cfg.noise_level v.length),
            d 0 cfg.noise_level v.length) := by
  obtain ⟨dw, hdw, hlen, helem⟩ := dwOf_eq cfg v g a anc ha hg hal
  simp only [sgldPreClamp, hdw, hlen, Option.some.injEq, Prod.mk.injEq]
  refine ⟨?_, trivial⟩
  apply List.ext_getElem
  · simp [List.length_zipWith, zipWith3_length]
    omega
  · intro i hL hR
    have hiv : i < v.length := by
      simp [List.length_zipWith] at hL; omega
    have hig : i < g.length := by omega
    have hia : i < a.length := by omega
    have hin : i < (d 0 cfg.noise_level v.length).length := by
      simp [List.length_zipWith] at hL; omega
    rw [List.getElem_zipWith, List.getElem_zipWith, List.getElem_zipWith,
      getElem_zipWith3 _ _ _ _ _ hiv hig hia
        (by simp [zipWith3_length]; omega),
      helem i hiv (by omega) hig hia]
    ring

/-- Line 120's Python truthiness check skips the clamp when
`bounding_box_size` is `None`. -/
theorem sgldClamp_none (cfg : GroupCfg α) (anc : Option (Tensor α)) (v2 : Tensor α)
    (hbox : cfg.bounding_box_size = none) : sgldClamp cfg anc v2 = some v2 := by
  simp [sgldClamp, hbox]

/-- Inversion of lines 120-126 when the box is set and non-zero: the
anchor must be present and the result is the elementwise clamp. -/
theorem sgldClamp_some_inv (cfg : GroupCfg α) (anc : Option (Tensor α))
    (v2 v3 : Tensor α) (b : α) (hbox : cfg.bounding_box_size = some b) (hb : b ≠ 0)
    (h : sgldClamp cfg anc v2 = some v3) :
    ∃ a, anc = some a ∧
      v3 = List.zipWith (fun x y => min (max x (y - b)) (y + b)) v2 a := by
  simp only [sgldClamp, hbox, if_pos hb] at h
  cases anc with
  | none => exact absurd h (by simp)
  | some a => exact ⟨a, rfl, by simpa using h.symm⟩

/-- Inversion of the per-parameter body: a successful update decomposes
into a successful pre-clamp phase followed by a successful clamp phase. -/
theorem sgldParamStep_inv (cfg : GroupCfg α) (rh : α → α)
    (d : α → α → Nat → Tensor α) (v g : Tensor α) (anc : Option (Tensor α))
    (v3 nz : Tensor α) (h : sgldParamStep cfg rh d v g anc = some (v3, nz)) :
    ∃ v2, sgldPreClamp cfg rh d v g anc = some (v2, nz) ∧
      sgldClamp cfg anc v2 = some v3 := by
  cases hpc : sgldPreClamp cfg rh d v g anc with
  | none =>
    simp only [sgldParamStep, hpc] at h
    exact Option.noConfusion h
  | some p2 =>
    obtain ⟨v2, nz2⟩ := p2
    simp only [sgldParamStep, hpc] at h
    cases hcl : sgldClamp cfg anc v2 with
    | none =>
      simp only [hcl] at h
      exact Option.noConfusion h
    | some w3 =>
      simp only [hcl, Option.some.injEq, Prod.mk.injEq] at h
      exact ⟨v2, by rw [h.2], by rw [hcl, h.1]⟩

/-- The drawn noise always comes from a generator call with mean `0` and
standard deviation `noise_level`. -/
theorem sgldParamStep_noise (cfg : GroupCfg α) (rh : α → α)
    (d : α → α → Nat → Tensor α) (v g : Tensor α) (anc : Option (Tensor α))
    (v3 nz : Tensor α) (h : sgldParamStep cfg rh d v g anc = some (v3, nz)) :
    ∃ n, nz = d 0 cfg.noise_level n := by
  obtain ⟨v2, hpc, -⟩ := sgldParamStep_inv cfg rh d v g anc v3 nz h
  cases hdw : dwOf cfg v g anc with
  | none =>
    simp only [sgldPreClamp, hdw] at hpc
    exact Option.noConfusion hpc
  | some dw =>
    simp only [sgldPreClamp, hdw, Option.some.injEq, Prod.mk.injEq] at hpc
    exact ⟨dw.length, hpc.2.symm⟩

/-- Inversion of one iteration of the parameter loop: either the head
parameter has no gradient and is passed through unchanged, or it has one
and is updated by the per-parameter body with the current draw index. -/
theorem stepParams_cons_inv (cfg : GroupCfg α) (rh : α → α)
    (draw : Nat → α → α → Nat → Tensor α) (p : Param α) (anc : Option (Tensor α))
    (rest : List (Param α × Option (Tensor α))) (k : Nat)
    (ps : List (Param α)) (ns : List (Tensor α)) (k2 : Nat)
    (h : stepParams cfg rh draw ((p, anc) :: rest) k = some (ps, ns, k2)) :
    (p.grad = none ∧ ∃ ps' , stepParams cfg rh draw rest k = some (ps', ns, k2) ∧
      ps = p :: ps') ∨
    (∃ g v3 nz ps' ns', p.grad = some g ∧
      sgldParamStep cfg rh (draw k) p.data g anc = some (v3, nz) ∧
      stepParams cfg rh draw rest (k + 1) = some (ps', ns', k2) ∧
      ps = Param.mk v3 p.grad :: ps' ∧ ns = nz :: ns') := by
  cases hg : p.grad with
  | none =>
    simp only [stepParams, hg] at h
    cases hrec : stepParams cfg rh draw rest k with
    | none =>
      simp only [hrec] at h
      exact Option.noConfusion h
    | some t =>
      obtain ⟨ps', ns', k'⟩ := t
      simp only [hrec, Option.some.injEq, Prod.mk.injEq] at h
      obtain ⟨h1, h2, h3⟩ := h
      exact Or.inl ⟨rfl, ps', by rw [h2, h3], h1.symm⟩
  | some g =>
    simp only [stepParams, hg] at h
    cases hps : sgldParamStep cfg rh (draw k) p.data g anc with
    | none =>
      simp only [hps] at h
      exact Option.noConfusion h
    | some u =>
      obtain ⟨v3, nz⟩ := u
      simp only [hps] at h
      cases hrec : stepParams cfg rh draw rest (k + 1) with
      | none =>
        simp only [hrec] at h
        exact Option.noConfusion h
      | some t =>
        obtain ⟨ps', ns', k'⟩ := t
        simp only [hrec, Option.some.injEq, Prod.mk.injEq] at h
        obtain ⟨h1, h2, h3⟩ := h
        exact Or.inr ⟨g, v3, nz, ps', ns', rfl, hps, by rw [h3], h1.symm, h2.symm⟩

/-- The parameter loop returns one output parameter per input parameter. -/
theorem stepParams_length (cfg : GroupCfg α) (rh : α → α)
    (draw : Nat → α → α → Nat → Tensor α) :
    ∀ (prs : List (Param α × Option (Tensor α))) (k : Nat)
      (ps : List (Param α)) (ns : List (Tensor α)) (k2 : Nat),
      stepParams cfg rh draw prs k = some (ps, ns, k2) → ps.length = prs.length := by
  intro prs
  induction prs with
  | nil =>
    intro k ps ns k2 h
    simp only [stepParams, Option.some.injEq, Prod.mk.injEq] at h
    exact congrArg List.length h.1.symm
  | cons pr rest ih =>
    intro k ps ns k2 h
    obtain ⟨p, anc⟩ := pr
    rcases stepParams_cons_inv cfg rh draw p anc rest k ps ns k2 h with
      ⟨-, ps', hrec, hps⟩ | ⟨g, v3, nz, ps', ns', -, -, hrec, hps, -⟩
    · rw [hps, List.length_cons, List.length_cons, ih k ps' ns k2 hrec]
    · rw [hps, List.length_cons, List.length_cons, ih (k + 1) ps' ns' k2 hrec]

/-- The noise log of the parameter loop has one entry per parameter with
a gradient, and the loop advances the draw counter by that number. -/
theorem stepParams_noise_shape (cfg : GroupCfg α) (rh : α → α)
    (draw : Nat → α → α → Nat → Tensor α) :
    ∀ (prs : List (Param α × Option (Tensor α))) (k : Nat)
      (ps : List (Param α)) (ns : List (Tensor α)) (k2 : Nat),
      stepParams cfg rh draw prs k = some (ps, ns, k2) →
      ns.length = prs.countP (fun q => q.1.grad.isSome) ∧ k2 = k + ns.length := by
  intro prs
  induction prs with
  | nil =>
    intro k ps ns k2 h
    simp only [stepParams, Option.some.injEq, Prod.mk.injEq] at h
    rw [← h.2.1, ← h.2.2]
    simp
  | cons pr rest ih =>
    intro k ps ns k2 h
    obtain ⟨p, anc⟩ := pr
    rcases stepParams_cons_inv cfg rh draw p anc rest k ps ns k2 h with
      ⟨hg, ps', hrec, -⟩ | ⟨g, v3, nz, ps', ns', hg, -, hrec, -, hns⟩
    · obtain ⟨hlen, hk⟩ := ih k ps' ns k2 hrec
      refine ⟨?_, hk⟩
      rw [hlen, List.countP_cons]
      simp [hg]
    · obtain ⟨hlen, hk⟩ := ih (k + 1) ps' ns' k2 hrec
      subst hns
      refine ⟨?_, ?_⟩
      · rw [List.length_cons, hlen, List.countP_cons]
        simp [hg]
      · rw [hk, List.length_cons]
        omega

/-- Each entry of the noise log came from the generator call whose index
is the entry's position in the log (counted from the loop's starting
counter), with mean `0`. -/
theorem stepParams_noise_get (cfg : GroupCfg α) (rh : α → α)
    (draw : Nat → α → α → Nat → Tensor α) :
    ∀ (prs : List (Param α × Option (Tensor α))) (k : Nat)
      (ps : List (Param α)) (ns : List (Tensor α)) (k2 : Nat),
      stepParams cfg rh draw prs k = some (ps, ns, k2) →
      ∀ (t : Nat) (ht : t < ns.length), ∃ sdev sz, ns[t] = draw (k + t) 0 sdev sz := by
  intro prs
  induction prs with
  | nil =>
    intro k ps ns k2 h t ht
    simp only [stepParams, Option.some.injEq, Prod.mk.injEq] at h
    rw [← h.2.1] at ht
    simp at ht
  | cons pr rest ih =>
    intro k ps ns k2 h t ht
    obtain ⟨p, anc⟩ := pr
    rcases stepParams_cons_inv cfg rh draw p anc rest k ps ns k2 h with
      ⟨-, ps', hrec, -⟩ | ⟨g, v3, nz, ps', ns', -, hstep, hrec, -, hns⟩
    · exact ih k ps' ns k2 hrec t ht
    · subst hns
      cases t with
      | zero =>
        obtain ⟨sz, hnz⟩ := sgldParamStep_noise cfg rh (draw k) p.data g anc v3 nz hstep
        exact ⟨cfg.noise_level, sz, by simpa using hnz⟩
      | succ t =>
        obtain ⟨sdev, sz, hentry⟩ := ih (k + 1) ps' ns' k2 hrec t (by simpa using ht)
        refine ⟨sdev, sz, ?_⟩
        rw [List.getElem_cons_succ, hentry]
        have : k + 1 + t = k + (t + 1) := by omega
        rw [this]

/-- A parameter without a gradient is passed through the loop verbatim. -/
theorem stepParams_get_none (cfg : GroupCfg α) (rh : α → α)
    (draw : Nat → α → α → Nat → Tensor α) :
    ∀ (prs : List (Param α × Option (Tensor α))) (k : Nat)
      (ps : List (Param α)) (ns : List (Tensor α)) (k2 : Nat),
      stepParams cfg rh draw prs k = some (ps, ns, k2) →
      ∀ (i : Nat) (h1 : i < prs.length) (h2 : i < ps.length),
        prs[i].1.grad = none → ps[i] = prs[i].1 := by
  intro prs
  induction prs with
  | nil =>
    intro k ps ns k2 h i h1 h2
    simp at h1
  | cons pr rest ih =>
    intro k ps ns k2 h i h1 h2 hg
    obtain ⟨p, anc⟩ := pr
    rcases stepParams_cons_inv cfg rh draw p anc rest k ps ns k2 h with
      ⟨-, ps', hrec, hps⟩ | ⟨g, v3, nz, ps', ns', hgs, -, hrec, hps, -⟩
    · subst hps
      cases i with
      | zero => rfl
      | succ i =>
        simp only [List.getElem_cons_succ] at hg ⊢
        exact ih k ps' ns k2 hrec i (by simpa using h1) (by simpa using h2) hg
    · subst hps
      cases i with
      | zero =>
        simp only [List.getElem_cons_zero] at hg
        rw [hgs] at hg
        exact Option.noConfusion hg
      | succ i =>
        simp only [List.getElem_cons_succ] at hg ⊢
        exact ih (k + 1) ps' ns' k2 hrec i (by simpa using h1) (by simpa using h2) hg

/-- A parameter with a gradient is replaced by the result of the
per-parameter body at some draw index, its gradient left in place and
its noise recorded in the log. -/
theorem stepParams_get_some (cfg : GroupCfg α) (rh : α → α)
    (draw : Nat → α → α → Nat → Tensor α) :
    ∀ (prs : List (Param α × Option (Tensor α))) (k : Nat)
      (ps : List (Param α)) (ns : List (Tensor α)) (k2 : Nat),
      stepParams cfg rh draw prs k = some (ps, ns, k2) →
      ∀ (i : Nat) (h1 : i < prs.length) (h2 : i < ps.length) (g : Tensor α),
        prs[i].1.grad = some g →
        ∃ (m : Nat) (v3 nz : Tensor α),
          sgldParamStep cfg rh (draw m) prs[i].1.data g prs[i].2 = some (v3, nz) ∧
          ps[i] = Param.mk v3 (some g) ∧ nz ∈ ns := by
  intro prs
  induction prs with
  | nil =>
    intro k ps ns k2 h i h1 h2
    simp at h1
  | cons pr rest ih =>
    intro k ps ns k2 h i h1 h2 g hg
    obtain ⟨p, anc⟩ := pr
    rcases stepParams_cons_inv cfg rh draw p anc rest k ps ns k2 h with
      ⟨hgn, ps', hrec, hps⟩ | ⟨g0, v3, nz, ps', ns', hgs, hstep, hrec, hps, hns⟩
    · subst hps
      cases i with
      | zero =>
        simp only [List.getElem_cons_zero] at hg
        rw [hgn] at hg
        exact Option.noConfusion hg
      | succ i =>
        simp only [List.getElem_cons_succ] at hg ⊢
        exact ih k ps' ns k2 hrec i (by simpa using h1) (by simpa using h2) g hg
    · subst hps
      subst hns
      cases i with
      | zero =>
        simp only [List.getElem_cons_zero] at hg ⊢
        rw [hgs] at hg
        obtain rfl : g0 = g := Option.some.injEq g0 g ▸ hg
        exact ⟨k, v3, nz, hstep, by rw [hgs], List.mem_cons_self nz ns'⟩
      | succ i =>
        simp only [List.getElem_cons_succ] at hg ⊢
        obtain ⟨m, v3', nz', hstep', hps', hmem⟩ :=
          ih (k + 1) ps' ns' k2 hrec i (by simpa using h1) (by simpa using h2) g hg
        exact ⟨m, v3', nz', hstep', hps', List.mem_cons_of_mem nz hmem⟩

/-- Inversion of one iteration of the group loop. -/
theorem stepGroups_cons_inv (rh : α → α) (draw : Nat → α → α → Nat → Tensor α)
    (g : ParamGroup α) (st : List (Option (Tensor α)))
    (rest : List (ParamGroup α × List (Option (Tensor α)))) (k : Nat)
    (gs : List (ParamGroup α)) (ns : List (Tensor α)) (k2 : Nat)
    (h : stepGroups rh draw ((g, st) :: rest) k = some (gs, ns, k2)) :
    ∃ ps ns1 k1 gs' ns2,
      stepParams g.cfg rh draw (g.params.zip st) k = some (ps, ns1, k1) ∧
      stepGroups rh draw rest k1 = some (gs', ns2, k2) ∧
      gs = ParamGroup.mk g.cfg ps :: gs' ∧ ns = ns1 ++ ns2 := by
  cases hsp : stepParams g.cfg rh draw (g.params.zip st) k with
  | none =>
    simp only [stepGroups, hsp] at h
    exact Option.noConfusion h
  | some t =>
    obtain ⟨ps, ns1, k1⟩ := t
    simp only [stepGroups, hsp] at h
    cases hrec : stepGroups rh draw rest k1 with
    | none =>
      simp only [hrec] at h
      exact Option.noConfusion h
    | some u =>
      obtain ⟨gs', ns2, k2'⟩ := u
      simp only [hrec, Option.some.injEq, Prod.mk.injEq] at h
      obtain ⟨h1, h2, h3⟩ := h
      exact ⟨ps, ns1, k1, gs', ns2, rfl, by rw [← h3]; exact hrec, h1.symm, h2.symm⟩

/-- The group loop returns one output group per input group. -/
theorem stepGroups_length (rh : α → α) (draw : Nat → α → α → Nat → Tensor α) :
    ∀ (l : List (ParamGroup α × List (Option (Tensor α)))) (k : Nat)
      (gs : List (ParamGroup α)) (ns : List (Tensor α)) (k2 : Nat),
      stepGroups rh draw l k = some (gs, ns, k2) → gs.length = l.length := by
  intro l
  induction l with
  | nil =>
    intro k gs ns k2 h
    simp only [stepGroups, Option.some.injEq, Prod.mk.injEq] at h
    exact congrArg List.length h.1.symm
  | cons gp rest ih =>
    intro k gs ns k2 h
    obtain ⟨g, st⟩ := gp
    obtain ⟨ps, ns1, k1, gs', ns2, -, hrec, hgs, -⟩ :=
      stepGroups_cons_inv rh draw g st rest k gs ns k2 h
    rw [hgs, List.length_cons, List.length_cons, ih k1 gs' ns2 k2 hrec]

/-- Each group of the result is its input group with the parameters run
through the parameter loop from some starting draw counter. -/
theorem stepGroups_get (rh : α → α) (draw : Nat → α → α → Nat → Tensor α) :
    ∀ (l : List (ParamGroup α × List (Option (Tensor α)))) (k : Nat)
      (gs : List (ParamGroup α)) (ns : List (Tensor α)) (k2 : Nat),
      stepGroups rh draw l k = some (gs, ns, k2) →
      ∀ (j : Nat) (h1 : j < l.length) (h2 : j < gs.length),
        ∃ kj ps nsj kj2,
          stepParams l[j].1.cfg rh draw (l[j].1.params.zip l[j].2) kj =
            some (ps, nsj, kj2) ∧
          gs[j] = ParamGroup.mk l[j].1.cfg ps := by
  intro l
  induction l with
  | nil =>
    intro k gs ns k2 h j h1 h2
    simp at h1
  | cons gp rest ih =>
    intro k gs ns k2 h j h1 h2
    obtain ⟨g, st⟩ := gp
    obtain ⟨ps, ns1, k1, gs', ns2, hsp, hrec, hgs, -⟩ :=
      stepGroups_cons_inv rh draw g st rest k gs ns k2 h
    subst hgs
    cases j with
    | zero => exact ⟨k, ps, ns1, k1, hsp, rfl⟩
    | succ j =>
      simp only [List.getElem_cons_succ]
      exact ih k1 gs' ns2 k2 hrec j (by simpa using h1) (by simpa using h2)

/-- The concatenated noise log of the group loop: its length is the
total number of gradient-carrying parameters reached by the loop, the
counter advances by that number, and the entry at position `t` came from
generator call `k + t` with mean `0`. -/
theorem stepGroups_noise (rh : α → α) (draw : Nat → α → α → Nat → Tensor α) :
    ∀ (l : List (ParamGroup α × List (Option (Tensor α)))) (k : Nat)
      (gs : List (ParamGroup α)) (ns : List (Tensor α)) (k2 : Nat),
      stepGroups rh draw l k = some (gs, ns, k2) →
      ns.length =
        (l.map (fun q => (q.1.params.zip q.2).countP (fun pr => pr.1.grad.isSome))).sum ∧
      k2 = k + ns.length ∧
      ∀ (t : Nat) (ht : t < ns.length), ∃ sdev sz, ns[t] = draw (k + t) 0 sdev sz := by
  intro l
  induction l with
  | nil =>
    intro k gs ns k2 h
    simp only [stepGroups, Option.some.injEq, Prod.mk.injEq] at h
    refine ⟨by rw [← h.2.1]; simp, by rw [← h.2.1, ← h.2.2]; simp, ?_⟩
    intro t ht
    rw [← h.2.1] at ht
    simp at ht
  | cons gp rest ih =>
    intro k gs ns k2 h
    obtain ⟨g, st⟩ := gp
    obtain ⟨ps, ns1, k1, gs', ns2, hsp, hrec, -, hns⟩ :=
      stepGroups_cons_inv rh draw g st rest k gs ns k2 h
    subst hns
    obtain ⟨hlen1, hk1⟩ := stepParams_noise_shape g.cfg rh draw (g.params.zip st) k ps ns1 k1 hsp
    obtain ⟨hlen2, hk2, hget2⟩ := ih k1 gs' ns2 k2 hrec
    refine ⟨?_, ?_, ?_⟩
    · rw [List.length_append, List.map_cons, List.sum_cons, hlen1, hlen2]
    · rw [hk2, hk1, List.length_append]
      omega
    · intro t ht
      by_cases htl : t < ns1.length
      · rw [List.getElem_append_left htl]
        exact stepParams_noise_get g.cfg rh draw (g.params.zip st) k ps ns1 k1 hsp t htl
      · rw [List.getElem_append_right (by omega)]
        obtain ⟨sdev, sz, hentry⟩ := hget2 (t - ns1.length)
          (by rw [List.length_append] at ht; omega)
        refine ⟨sdev, sz, ?_⟩
        rw [hentry]
        have heq : k1 + (t - ns1.length) = k + t := by omega
        rw [heq]

/-- Inversion of `SGLD.step`: a successful step is a successful run of
the group loop from draw counter `0`, the state store is carried over
untouched, and `self.noise` holds the collected log when `save_noise`
is set and the fresh empty list otherwise. -/
theorem SGLD.step_inv (rh : α → α) (draw : Nat → α → α → Nat → Tensor α)
    (o o' : SGLD α) (h : SGLD.step rh draw o = some o') :
    ∃ gs ns k2,
      stepGroups rh draw (o.param_groups.zip o.state) 0 = some (gs, ns, k2) ∧
      o' = SGLD.mk gs o.state o.save_noise (some (if o.save_noise then ns else [])) := by
  cases hsg : stepGroups rh draw (o.param_groups.zip o.state) 0 with
  | none =>
    simp only [SGLD.step, hsg] at h
    exact Option.noConfusion h
  | some t =>
    obtain ⟨gs, ns, k2⟩ := t
    simp only [SGLD.step, hsg, Option.some.injEq] at h
    exact ⟨gs, ns, k2, rfl, h.symm⟩

/-- A single `step()` never writes the state store (the anchors). -/
theorem SGLD.step_state (rh : α → α) (draw : Nat → α → α → Nat → Tensor α)
    (o o' : SGLD α) (h : SGLD.step rh draw o = some o') : o'.state = o.state := by
  obtain ⟨gs, ns, k2, -, ho'⟩ := SGLD.step_inv rh draw o o' h
  rw [ho']

/-- Any number of `step()` calls never writes the state store. -/
theorem SGLD.steps_state (rh : α → α) :
    ∀ (n : Nat) (draws : Nat → Nat → α → α → Nat → Tensor α) (o o' : SGLD α),
      SGLD.steps rh draws n o = some o' → o'.state = o.state := by
  intro n
  induction n with
  | zero =>
    intro draws o o' h
    simp only [SGLD.steps, Option.some.injEq] at h
    rw [← h]
  | succ n ih =>
    intro draws o o' h
    cases hstep : SGLD.step rh (draws 0) o with
    | none =>
      simp only [SGLD.steps, hstep] at h
      exact Option.noConfusion h
    | some o1 =>
      simp only [SGLD.steps, hstep] at h
      rw [ih (fun i => draws (i + 1)) o1 o' h,
        SGLD.step_state rh (draws 0) o o1 hstep]

/-- Bridge: a successful `step()` leaves the parameter at position
`(j, i)` untouched (data and gradient) when it has no gradient, and
leaves its group's configuration unchanged. -/
theorem SGLD.step_get_none (rh : α → α) (draw : Nat → α → α → Nat → Tensor α)
    (o o' : SGLD α) (h : SGLD.step rh draw o = some o')
    (j : Nat) (hj : j < o.param_groups.length) (hj2 : j < o.state.length)
    (i : Nat) (hi : i < o.param_groups[j].params.length)
    (hi2 : i < o.state[j].length)
    (hg : o.param_groups[j].params[i].grad = none) :
    ∃ (hj3 : j < o'.param_groups.length)
      (hi3 : i < o'.param_groups[j].params.length),
      o'.param_groups[j].cfg = o.param_groups[j].cfg ∧
      o'.param_groups[j].params[i] = o.param_groups[j].params[i] := by
  obtain ⟨gs, ns, k2, hsg, ho'⟩ := SGLD.step_inv rh draw o o' h
  have hopg : o'.param_groups = gs := by rw [ho']
  have hjz : j < (o.param_groups.zip o.state).length := by
    rw [List.length_zip]; omega
  have hgl : gs.length = (o.param_groups.zip o.state).length :=
    stepGroups_length rh draw _ 0 gs ns k2 hsg
  have hj3 : j < gs.length := by omega
  obtain ⟨kj, ps, nsj, kj2, hsp, hgsj⟩ :=
    stepGroups_get rh draw _ 0 gs ns k2 hsg j hjz hj3
  have hzip1 : (o.param_groups.zip o.state)[j].1 = o.param_groups[j] := by
    rw [List.getElem_zip]
  have hzip2 : (o.param_groups.zip o.state)[j].2 = o.state[j] := by
    rw [List.getElem_zip]
  rw [hzip1, hzip2] at hsp
  rw [hzip1] at hgsj
  have hiz : i < (o.param_groups[j].params.zip o.state[j]).length := by
    rw [List.length_zip]; omega
  have hpl : ps.length = (o.param_groups[j].params.zip o.state[j]).length :=
    stepParams_length _ rh draw _ kj ps nsj kj2 hsp
  have hi3 : i < ps.length := by omega
  have hzi : (o.param_groups[j].params.zip o.state[j])[i].1
      = o.param_groups[j].params[i] := by
    rw [List.getElem_zip]
  have hpsi : ps[i] = o.param_groups[j].params[i] := by
    rw [← hzi]
    exact stepParams_get_none _ rh draw _ kj ps nsj kj2 hsp i hiz hi3 (by rw [hzi]; exact hg)
  refine ⟨by rw [hopg]; exact hj3, ?_, ?_, ?_⟩
  · simp only [hopg, hgsj]
    exact hi3
  · simp only [hopg, hgsj]
  · simp only [hopg, hgsj]
    exact hpsi

/-- Bridge: a successful `step()` maps the parameter at position
`(j, i)` with gradient `g` to the output of the per-parameter body on
its data, gradient and state entry, at some draw index, leaving the
gradient and the group's configuration in place. -/
theorem SGLD.step_get_some (rh : α → α) (draw : Nat → α → α → Nat → Tensor α)
    (o o' : SGLD α) (h : SGLD.step rh draw o = some o')
    (j : Nat) (hj : j < o.param_groups.length) (hj2 : j < o.state.length)
    (i : Nat) (hi : i < o.param_groups[j].params.length)
    (hi2 : i < o.state[j].length)
    (g : Tensor α) (hg : o.param_groups[j].params[i].grad = some g) :
    ∃ (m : Nat) (v3 nz : Tensor α) (hj3 : j < o'.param_groups.length)
      (hi3 : i < o'.param_groups[j].params.length),
      sgldParamStep o.param_groups[j].cfg rh (draw m)
        o.param_groups[j].params[i].data g o.state[j][i] = some (v3, nz) ∧
      o'.param_groups[j].cfg = o.param_groups[j].cfg ∧
      o'.param_groups[j].params[i] = Param.mk v3 (some g) := by
  obtain ⟨gs, ns, k2, hsg, ho'⟩ := SGLD.step_inv rh draw o o' h
  have hopg : o'.param_groups = gs := by rw [ho']
  have hjz : j < (o.param_groups.zip o.state).length := by
    rw [List.length_zip]; omega
  have hgl : gs.length = (o.param_groups.zip o.state).length :=
    stepGroups_length rh draw _ 0 gs ns k2 hsg
  have hj3 : j < gs.length := by omega
  obtain ⟨kj, ps, nsj, kj2, hsp, hgsj⟩ :=
    stepGroups_get rh draw _ 0 gs ns k2 hsg j hjz hj3
  have hzip1 : (o.param_groups.zip o.state)[j].1 = o.param_groups[j] := by
    rw [List.getElem_zip]
  have hzip2 : (o.param_groups.zip o.state)[j].2 = o.state[j] := by
    rw [List.getElem_zip]
  rw [hzip1, hzip2] at hsp
  rw [hzip1] at hgsj
  have hiz : i < (o.param_groups[j].params.zip o.state[j]).length := by
    rw [List.length_zip]; omega
  have hpl : ps.length = (o.param_groups[j].params.zip o.state[j]).length :=
    stepParams_length _ rh draw _ kj ps nsj kj2 hsp
  have hi3 : i < ps.length := by omega
  have hzi : (o.param_groups[j].params.zip o.state[j])[i].1
      = o.param_groups[j].params[i] := by
    rw [List.getElem_zip]
  have hzi2 : (o.param_groups[j].params.zip o.state[j])[i].2
      = o.state[j][i] := by
    rw [List.getElem_zip]
  obtain ⟨m, v3, nz, hstep, hpsi, -⟩ :=
    stepParams_get_some _ rh draw _ kj ps nsj kj2 hsp i hiz hi3 g
      (by rw [hzi]; exact hg)
  rw [hzi, hzi2] at hstep
  refine ⟨m, v3, nz, by rw [hopg]; exact hj3, ?_, hstep, ?_, ?_⟩
  · simp only [hopg, hgsj]
    exact hi3
  · simp only [hopg, hgsj]
  · simp only [hopg, hgsj]
    exact hpsi

/-- Adding a zero noise tensor elementwise (with any scale) leaves a
tensor unchanged. -/
theorem zipWith_add_zero (c : α) (l : List α) (m : Nat) (hm : l.length ≤ m) :
    List.zipWith (fun x n => x + c * n) l (List.replicate m 0) = l := by
  apply List.ext_getElem
  · simp only [List.length_zipWith, List.length_replicate]
    omega
  · intro i h1 h2
    rw [List.getElem_zipWith, List.getElem_replicate]
    ring

/-- The per-parameter body under the zero-valued draw (the test seam
disabling noise injection) and an unset bounding box, in closed form:
the pure drift update. -/
theorem sgldParamStep_zero_noise (cfg : GroupCfg α) (rh : α → α) (k : Nat)
    (v g a : Tensor α) (anc : Option (Tensor α))
    (hbox : cfg.bounding_box_size = none)
    (ha : cfg.localization = 0 ∨ anc = some a)
    (hg : g.length = v.length) (hal : a.length = v.length) :
    sgldParamStep cfg rh (zeroDraw k) v g anc =
      some (zipWith3 (fun x gx ax =>
          x - 1 / 2 * cfg.lr * (gx * cfg.temperature + cfg.weight_decay * x
            + cfg.localization * (x - ax))) v g a,
        List.replicate v.length 0) := by
  have hpc := sgldPreClamp_eq cfg rh (zeroDraw k) v g a anc ha hg hal
  have hdrift : (zipWith3 (fun x gx ax =>
      x - 1 / 2 * cfg.lr * (gx * cfg.temperature + cfg.weight_decay * x
        + cfg.localization * (x - ax))) v g a).length = v.length := by
    rw [zipWith3_length]
    omega
  have hz : zeroDraw (α := α) k 0 cfg.noise_level v.length =
      List.replicate v.length 0 := rfl
  rw [hz] at hpc
  simp only [sgldParamStep, hpc, sgldClamp_none cfg anc _ hbox]
  rw [zipWith_add_zero (rh cfg.lr) _ v.length (by omega)]

/-- C1: the spec says that for a parameter in a group with
`localization = 0` and no `bounding_box_size` (the unset default) no
anchor is captured at construction.  The code disagrees: with the
Python default `bounding_box_size=None`, the guard
`group["bounding_box_size"] != 0` evaluates `None != 0`, which is
`True`, so construction stores an anchor for every parameter.  At the
failing input below the state store holds the anchor `[10]` instead of
staying empty. -/
theorem c1_default_config_captures_anchor :
    (sgldInit [ParamGroup.mk (defaultCfg (α := ℚ)) [Param.mk [10] none]] false).state
        = [[some [10]]] ∧
    (sgldInit [ParamGroup.mk (defaultCfg (α := ℚ)) [Param.mk [10] none]] false).state
        ≠ [[none]] := by
  constructor
  · decide
  · decide

/-- C2: for a parameter with a gradient, with the Gaussian draw forced
to the zero tensor (and the bounding box at its unset default so the
update is not post-processed), one `step()` updates the value to
exactly
`value - 0.5*lr*(grad*temperature + weight_decay*value + localization*(value - anchor))`,
elementwise, with the gradient left in place. -/
theorem c2_zero_draw_update (rh : α → α) (o o' : SGLD α)
    (h : SGLD.step rh zeroDraw o = some o')
    (j : Nat) (hj : j < o.param_groups.length) (hj2 : j < o.state.length)
    (i : Nat) (hi : i < o.param_groups[j].params.length)
    (hi2 : i < o.state[j].length)
    (g a : Tensor α)
    (hg : o.param_groups[j].params[i].grad = some g)
    (hbox : o.param_groups[j].cfg.bounding_box_size = none)
    (ha : o.param_groups[j].cfg.localization = 0 ∨ o.state[j][i] = some a)
    (hlg : g.length = o.param_groups[j].params[i].data.length)
    (hla : a.length = o.param_groups[j].params[i].data.length) :
    o'.param_groups[j]?.bind (fun gr => gr.params[i]?) =
      some (Param.mk
        (zipWith3 (fun x gx ax =>
          x - 1 / 2 * o.param_groups[j].cfg.lr *
            (gx * o.param_groups[j].cfg.temperature
              + o.param_groups[j].cfg.weight_decay * x
              + o.param_groups[j].cfg.localization * (x - ax)))
          o.param_groups[j].params[i].data g a)
        (some g)) := by
  obtain ⟨m, v3, nz, hj3, hi3, hstep, hcfg, hres⟩ :=
    SGLD.step_get_some rh zeroDraw o o' h j hj hj2 i hi hi2 g hg
  rw [sgldParamStep_zero_noise _ rh m _ g a _ hbox ha hlg hla] at hstep
  rw [List.getElem?_eq_getElem hj3, Option.some_bind,
    List.getElem?_eq_getElem hi3, hres]
  obtain ⟨h1, -⟩ := Prod.mk.inj (Option.some.inj hstep)
  rw [h1]

/-- C2 witness: the spec scenario `lr=0.04`, `weight_decay=0`,
`localization=0.5`, value drifted to `12.0`, anchor `10.0`, gradient
`0`, zero draw: the new value is `11.98 = 599/50`. -/
theorem c2_zero_draw_update_witness :
    (SGLD.mk [ParamGroup.mk (GroupCfg.mk ((1:ℚ)/25) 1 0 (1/2) 1 none)
        [Param.mk [599/50] (some [0])]] [[some [10]]] false
        (some [])).param_groups[0]?.bind (fun gr => gr.params[0]?) =
      some (Param.mk
        (zipWith3 (fun x gx ax => x - 1 / 2 * ((1:ℚ)/25) * (gx * 1 + 0 * x + 1/2 * (x - ax)))
          [12] [0] [10])
        (some [0])) ∧
    zipWith3 (fun x gx ax => x - 1 / 2 * ((1:ℚ)/25) * (gx * 1 + 0 * x + 1/2 * (x - ax)))
        [12] [0] [10] = [599/50] := by
  constructor
  · exact c2_zero_draw_update (fun x => x)
      (SGLD.mk [ParamGroup.mk (GroupCfg.mk ((1:ℚ)/25) 1 0 (1/2) 1 none)
        [Param.mk [12] (some [0])]] [[some [10]]] false none)
      (SGLD.mk [ParamGroup.mk (GroupCfg.mk ((1:ℚ)/25) 1 0 (1/2) 1 none)
        [Param.mk [599/50] (some [0])]] [[some [10]]] false (some []))
      (by norm_num [SGLD.step, stepGroups, stepParams, sgldParamStep, sgldPreClamp,
        sgldClamp, dwOf, zipWith3, zeroDraw])
      0 (by decide) (by decide) 0 (by decide) (by decide)
      [0] [10] (by decide) (by decide) (Or.inr (by decide)) (by decide) (by decide)
  · norm_num [zipWith3]

/-- C6: a parameter that carries no gradient in a `step()` call is
skipped and left unchanged (data and gradient). -/
theorem c6_no_grad_param_unchanged (rh : α → α) (draw : Nat → α → α → Nat → Tensor α)
    (o o' : SGLD α) (h : SGLD.step rh draw o = some o')
    (j : Nat) (hj : j < o.param_groups.length) (hj2 : j < o.state.length)
    (i : Nat) (hi : i < o.param_groups[j].params.length)
    (hi2 : i < o.state[j].length)
    (hg : o.param_groups[j].params[i].grad = none) :
    o'.param_groups[j]?.bind (fun gr => gr.params[i]?) =
      some o.param_groups[j].params[i] := by
  obtain ⟨hj3, hi3, -, heq⟩ := SGLD.step_get_none rh draw o o' h j hj hj2 i hi hi2 hg
  rw [List.getElem?_eq_getElem hj3, Option.some_bind,
    List.getElem?_eq_getElem hi3, heq]

/-- C6 witness: a gradient-free parameter with value `[3]` is untouched
by a step that updates its gradient-carrying neighbour. -/
theorem c6_no_grad_param_unchanged_witness :
    (SGLD.mk [ParamGroup.mk (GroupCfg.mk ((1:ℚ)/25) 1 0 0 1 none)
        [Param.mk [3] none, Param.mk [(199:ℚ)/50] (some [1])]] [[none, none]] true
        (some [[0]])).param_groups[0]?.bind (fun gr => gr.params[0]?) =
      some (Param.mk [(3:ℚ)] none) :=
  c6_no_grad_param_unchanged (fun x => x) zeroDraw
    (SGLD.mk [ParamGroup.mk (GroupCfg.mk ((1:ℚ)/25) 1 0 0 1 none)
      [Param.mk [3] none, Param.mk [4] (some [1])]] [[none, none]] true (some [[99]]))
    (SGLD.mk [ParamGroup.mk (GroupCfg.mk ((1:ℚ)/25) 1 0 0 1 none)
      [Param.mk [3] none, Param.mk [(199:ℚ)/50] (some [1])]] [[none, none]] true
      (some [[0]]))
    (by norm_num [SGLD.step, stepGroups, stepParams, sgldParamStep, sgldPreClamp,
      sgldClamp, dwOf, zipWith3, zeroDraw])
    0 (by decide) (by decide) 0 (by decide) (by decide) (by decide)

/-- C7: for every parameter whose group has `localization ≠ 0` or a set,
non-zero `bounding_box_size`, the anchor stored at construction equals
the parameter's data at that exact moment, and after any number of
`step()` calls the state store still holds exactly those anchors. -/
theorem c7_anchor_capture_and_persistence (groups : List (ParamGroup α)) (sn : Bool)
    (rh : α → α) (draws : Nat → Nat → α → α → Nat → Tensor α) (n : Nat) (o' : SGLD α)
    (h : SGLD.steps rh draws n (sgldInit groups sn) = some o')
    (j : Nat) (hj : j < groups.length)
    (hcap : groups[j].cfg.localization ≠ 0 ∨
      ∃ b, groups[j].cfg.bounding_box_size = some b ∧ b ≠ 0) :
    o'.state[j]? = some (groups[j].params.map (fun p => some p.data)) := by
  have hst : o'.state = initState groups := by
    rw [SGLD.steps_state rh n draws (sgldInit groups sn) o' h]
    rfl
  have hcond : groups[j].cfg.localization ≠ 0 ∨
      pyNeZero groups[j].cfg.bounding_box_size = true := by
    rcases hcap with hc | ⟨b, hb, hbne⟩
    · exact Or.inl hc
    · refine Or.inr ?_
      rw [hb]
      simp only [pyNeZero]
      simpa using hbne
  have hjlen : j < (initState groups).length := by
    simp only [initState, List.length_map]
    omega
  rw [hst, List.getElem?_eq_getElem hjlen]
  simp only [initState, List.getElem_map]
  rw [if_pos hcond]

/-- C7 witness: one group with `localization = 1/2`, one parameter with
value `[10]`: after one (gradient-free) step the state store still
holds the anchor `[10]` captured at construction. -/
theorem c7_anchor_capture_and_persistence_witness :
    (SGLD.mk [ParamGroup.mk (GroupCfg.mk ((1:ℚ)/25) 1 0 (1/2) 1 none)
        [Param.mk [10] none]] [[some [10]]] false (some [])).state[0]? =
      some ([Param.mk [(10:ℚ)] none].map (fun p => some p.data)) :=
  c7_anchor_capture_and_persistence
    [ParamGroup.mk (GroupCfg.mk ((1:ℚ)/25) 1 0 (1/2) 1 none) [Param.mk [10] none]]
    false (fun x => x) (fun _ => zeroDraw) 1
    (SGLD.mk [ParamGroup.mk (GroupCfg.mk ((1:ℚ)/25) 1 0 (1/2) 1 none)
      [Param.mk [10] none]] [[some [10]]] false (some []))
    (by norm_num [SGLD.steps, SGLD.step, sgldInit, initState, pyNeZero, stepGroups,
      stepParams, zeroDraw])
    0 (by decide) (Or.inl (by norm_num))

/-- C8: construction warns (non-fatally) when `noise_level != 1.0` and
when `temperature == 1.0`; it emits no warning when `noise_level == 1.0`
and `temperature != 1.0`; and in every case construction completes and
yields a usable optimizer holding the given groups. -/
theorem c8_construction_warnings (nl T : α) (groups : List (ParamGroup α)) (sn : Bool) :
    (nl ≠ 1 → SGLDWarning.noiseLevelNeOne ∈ initWarnings nl T) ∧
    (T = 1 → SGLDWarning.temperatureEqOne ∈ initWarnings nl T) ∧
    (nl = 1 → T ≠ 1 → initWarnings nl T = []) ∧
    (sgldInit groups sn).param_groups = groups ∧
    (sgldInit groups sn).save_noise = sn := by
  refine ⟨?_, ?_, ?_, rfl, rfl⟩
  · intro hne
    simp [initWarnings, hne]
  · intro heq
    simp [initWarnings, heq]
  · intro h1 h2
    simp [initWarnings, h1, h2]

/-- C8 witness: both warning conditions fire at `noise_level = 2`,
`temperature = 1`, and no warning is emitted at `noise_level = 1`,
`temperature = 2`. -/
theorem c8_construction_warnings_witness :
    SGLDWarning.noiseLevelNeOne ∈ initWarnings (2:ℚ) 1 ∧
    SGLDWarning.temperatureEqOne ∈ initWarnings (2:ℚ) 1 ∧
    initWarnings (1:ℚ) 2 = [] ∧
    (sgldInit ([] : List (ParamGroup ℚ)) false).param_groups = [] :=
  ⟨(c8_construction_warnings 2 1 ([] : List (ParamGroup ℚ)) false).1 (by norm_num),
   (c8_construction_warnings 2 1 ([] : List (ParamGroup ℚ)) false).2.1 rfl,
   (c8_construction_warnings (1:ℚ) 2 ([] : List (ParamGroup ℚ)) false).2.2.1 rfl
      (by norm_num),
   (c8_construction_warnings (1:ℚ) 2 ([] : List (ParamGroup ℚ)) false).2.2.2.1⟩

/-- C10: after construction the `noise` attribute is `None` (not an
empty list), whatever `save_noise` is; once `step()` has run it is an
actual list. -/
theorem c10_noise_attribute (groups : List (ParamGroup α)) (sn : Bool)
    (rh : α → α) (draw : Nat → α → α → Nat → Tensor α) (o o' : SGLD α)
    (h : SGLD.step rh draw o = some o') :
    (sgldInit groups sn).noise = none ∧ ∃ l, o'.noise = some l := by
  obtain ⟨gs, ns, k2, -, ho'⟩ := SGLD.step_inv rh draw o o' h
  exact ⟨rfl, if o.save_noise then ns else [], by rw [ho']⟩

/-- C10 witness: on an optimizer with no parameter groups, the `noise`
attribute is `None` after construction and a list after one step. -/
theorem c10_noise_attribute_witness :
    (sgldInit ([] : List (ParamGroup ℚ)) true).noise = none ∧
    ∃ l, (SGLD.mk ([] : List (ParamGroup ℚ)) [] false (some [])).noise = some l :=
  c10_noise_attribute [] true (fun x => x) zeroDraw
    (SGLD.mk ([] : List (ParamGroup ℚ)) [] false none)
    (SGLD.mk ([] : List (ParamGroup ℚ)) [] false (some [])) (by decide)

/-- C3: for every gradient-carrying parameter, the value `step()` stores
is the optional clamp of a pre-clamp tensor that equals, elementwise,
`value - 0.5*lr*dw + lr ^ (1/2) * noise`, where `dw` combines the
gradient term, the decay term and the localization term before any
scaling: the drift carries the factor `lr` (times `1/2`) and the noise
separately carries `lr ^ ((1:ℝ)/2)` (Python `lr ** 0.5`). -/
theorem c3_preclamp_decomposition (draw : Nat → ℝ → ℝ → Nat → Tensor ℝ)
    (o o' : SGLD ℝ)
    (h : SGLD.step (fun x : ℝ => x ^ ((1:ℝ)/2)) draw o = some o')
    (j : Nat) (hj : j < o.param_groups.length) (hj2 : j < o.state.length)
    (i : Nat) (hi : i < o.param_groups[j].params.length)
    (hi2 : i < o.state[j].length)
    (g a : Tensor ℝ) (hg : o.param_groups[j].params[i].grad = some g)
    (ha : o.param_groups[j].cfg.localization = 0 ∨ o.state[j][i] = some a)
    (hlg : g.length = o.param_groups[j].params[i].data.length)
    (hla : a.length = o.param_groups[j].params[i].data.length) :
    ∃ (m : Nat) (v2 nz : Tensor ℝ) (p' : Param ℝ),
      o'.param_groups[j]?.bind (fun gr => gr.params[i]?) = some p' ∧
      sgldPreClamp o.param_groups[j].cfg (fun x : ℝ => x ^ ((1:ℝ)/2)) (draw m)
        o.param_groups[j].params[i].data g o.state[j][i] = some (v2, nz) ∧
      sgldClamp o.param_groups[j].cfg o.state[j][i] v2 = some p'.data ∧
      v2 = List.zipWith (fun x n => x + o.param_groups[j].cfg.lr ^ ((1:ℝ)/2) * n)
        (zipWith3 (fun x gx ax =>
          x - 1 / 2 * o.param_groups[j].cfg.lr *
            (gx * o.param_groups[j].cfg.temperature
              + o.param_groups[j].cfg.weight_decay * x
              + o.param_groups[j].cfg.localization * (x - ax)))
          o.param_groups[j].params[i].data g a) nz := by
  obtain ⟨m, v3, nz, hj3, hi3, hstep, -, hres⟩ :=
    SGLD.step_get_some (fun x : ℝ => x ^ ((1:ℝ)/2)) draw o o' h j hj hj2 i hi hi2 g hg
  obtain ⟨v2, hpc, hcl⟩ :=
    sgldParamStep_inv _ (fun x : ℝ => x ^ ((1:ℝ)/2)) _ _ g _ v3 nz hstep
  have hform := sgldPreClamp_eq o.param_groups[j].cfg (fun x : ℝ => x ^ ((1:ℝ)/2))
    (draw m) o.param_groups[j].params[i].data g a o.state[j][i] ha hlg hla
  have hpc2 := hpc
  rw [hform] at hpc2
  obtain ⟨h1, h2⟩ := Prod.mk.inj (Option.some.inj hpc2)
  refine ⟨m, v2, nz, Param.mk v3 (some g), ?_, hpc, hcl, ?_⟩
  · rw [List.getElem?_eq_getElem hj3, Option.some_bind,
      List.getElem?_eq_getElem hi3, hres]
  · rw [← h1, h2]

/-- C3 witness: a scalar parameter `10` with gradient `2`, `lr = 1/4`,
zero draw: the pre-clamp tensor is the drift `[39/4]` plus
`(1/4) ^ (1/2 : ℝ)` times the zero noise, and with no box it is stored
as is. -/
theorem c3_preclamp_decomposition_witness :
    ∃ (m : Nat) (v2 nz : Tensor ℝ) (p' : Param ℝ),
      (some (ParamGroup.mk (GroupCfg.mk ((1:ℝ)/4) 1 0 0 1 none)
        [Param.mk [(39:ℝ)/4] (some [2])])).bind (fun gr => gr.params[0]?) = some p' ∧
      sgldPreClamp (GroupCfg.mk ((1:ℝ)/4) 1 0 0 1 none) (fun x : ℝ => x ^ ((1:ℝ)/2))
        (zeroDraw m) [10] [2] (some [10]) = some (v2, nz) ∧
      sgldClamp (GroupCfg.mk ((1:ℝ)/4) 1 0 0 1 none) (some [10]) v2 = some p'.data ∧
      v2 = List.zipWith (fun x n => x + ((1:ℝ)/4) ^ ((1:ℝ)/2) * n)
        (zipWith3 (fun x gx ax => x - 1 / 2 * ((1:ℝ)/4) * (gx * 1 + 0 * x + 0 * (x - ax)))
          [10] [2] [10]) nz :=
  c3_preclamp_decomposition zeroDraw
    (SGLD.mk [ParamGroup.mk (GroupCfg.mk ((1:ℝ)/4) 1 0 0 1 none)
      [Param.mk [10] (some [2])]] [[some [10]]] false none)
    (SGLD.mk [ParamGroup.mk (GroupCfg.mk ((1:ℝ)/4) 1 0 0 1 none)
      [Param.mk [(39:ℝ)/4] (some [2])]] [[some [10]]] false (some []))
    (by norm_num [SGLD.step, stepGroups, stepParams, sgldParamStep, sgldPreClamp,
      sgldClamp, dwOf, zipWith3, zeroDraw])
    0 (by norm_num) (by norm_num) 0 (by norm_num) (by norm_num)
    [2] [10] rfl (Or.inl rfl) rfl rfl

/-- C4 counterexample: the claim quantifies over every set, non-zero
`bounding_box_size`, but at `bounding_box_size = -1` the clamp's bounds
cross and `torch.clamp_` (lower bound applied first, then upper) sends
the value to `anchor + b = -1`, outside the claimed interval
`[anchor - b, anchor + b] = [1, -1]`: the invariant fails. -/
theorem c4_bounding_box_negative_cex :
    SGLD.step (fun x : ℚ => x) zeroDraw
        (SGLD.mk [ParamGroup.mk (GroupCfg.mk 0 1 0 0 1 (some (-1)))
          [Param.mk [0] (some [0])]] [[some [0]]] false none)
      = some (SGLD.mk [ParamGroup.mk (GroupCfg.mk 0 1 0 0 1 (some (-1)))
          [Param.mk [-1] (some [0])]] [[some [0]]] false (some [])) ∧
    ¬ ((0 : ℚ) - (-1) ≤ -1 ∧ (-1 : ℚ) ≤ 0 + (-1)) := by
  constructor
  · norm_num [SGLD.step, stepGroups, stepParams, sgldParamStep, sgldPreClamp,
      sgldClamp, dwOf, zipWith3, zeroDraw]
  · norm_num

/-- C4 (amended: the box size must be positive, not merely non-zero):
after any `step()`, every element of a just-updated parameter in a group
with `bounding_box_size = some b`, `0 < b`, lies in
`[anchor - b, anchor + b]` of its anchor element, however far the
pre-clamp update overshot. -/
theorem c4_bounding_box_invariant (rh : α → α) (draw : Nat → α → α → Nat → Tensor α)
    (o o' : SGLD α) (h : SGLD.step rh draw o = some o')
    (j : Nat) (hj : j < o.param_groups.length) (hj2 : j < o.state.length)
    (i : Nat) (hi : i < o.param_groups[j].params.length)
    (hi2 : i < o.state[j].length)
    (g : Tensor α) (hg : o.param_groups[j].params[i].grad = some g)
    (b : α) (hbox : o.param_groups[j].cfg.bounding_box_size = some b) (hb : 0 < b) :
    ∃ (p' : Param α) (a : Tensor α),
      o'.param_groups[j]?.bind (fun gr => gr.params[i]?) = some p' ∧
      o.state[j][i] = some a ∧
      ∀ q ∈ p'.data.zip a, q.2 - b ≤ q.1 ∧ q.1 ≤ q.2 + b := by
  obtain ⟨m, v3, nz, hj3, hi3, hstep, -, hres⟩ :=
    SGLD.step_get_some rh draw o o' h j hj hj2 i hi hi2 g hg
  obtain ⟨v2, -, hcl⟩ := sgldParamStep_inv _ rh _ _ g _ v3 nz hstep
  obtain ⟨a, hanc, hv3⟩ :=
    sgldClamp_some_inv _ _ v2 v3 b hbox (ne_of_gt hb) hcl
  refine ⟨Param.mk v3 (some g), a, ?_, hanc, ?_⟩
  · rw [List.getElem?_eq_getElem hj3, Option.some_bind,
      List.getElem?_eq_getElem hi3, hres]
  · intro q hq
    subst hv3
    have hq2 : q ∈ (List.zipWith (fun x y => min (max x (y - b)) (y + b)) v2 a).zip a := hq
    obtain ⟨t, ht, hqt⟩ := List.mem_iff_getElem.mp hq2
    rw [List.length_zip, List.length_zipWith] at ht
    have htz : t < (List.zipWith (fun x y => min (max x (y - b)) (y + b)) v2 a).length := by
      rw [List.length_zipWith]
      omega
    have hta : t < a.length := by omega
    have htv : t < v2.length := by omega
    have hclamp : (List.zipWith (fun x y => min (max x (y - b)) (y + b)) v2 a)[t]
        = min (max v2[t] (a[t] - b)) (a[t] + b) := List.getElem_zipWith
    rw [List.getElem_zip] at hqt
    subst hqt
    refine ⟨?_, ?_⟩
    · show a[t] - b ≤ (List.zipWith (fun x y => min (max x (y - b)) (y + b)) v2 a)[t]
      rw [hclamp]
      exact le_min (le_max_of_le_right (le_refl _)) (by linarith)
    · show (List.zipWith (fun x y => min (max x (y - b)) (y + b)) v2 a)[t] ≤ a[t] + b
      rw [hclamp]
      exact min_le_right _ _

/-- C4 witness: the spec scenario `bounding_box_size = 1`, anchor `5`,
pre-clamp value `7.3`: the stored value `6` lies in `[4, 6]`. -/
theorem c4_bounding_box_invariant_witness :
    ∃ (p' : Param ℚ) (a : Tensor ℚ),
      (some (ParamGroup.mk (GroupCfg.mk (0:ℚ) 1 0 0 1 (some 1))
        [Param.mk [6] (some [0])])).bind (fun gr => gr.params[0]?) = some p' ∧
      (some [(5:ℚ)] : Option (Tensor ℚ)) = some a ∧
      ∀ q ∈ p'.data.zip a, q.2 - 1 ≤ q.1 ∧ q.1 ≤ q.2 + 1 :=
  c4_bounding_box_invariant (fun x => x) zeroDraw
    (SGLD.mk [ParamGroup.mk (GroupCfg.mk (0:ℚ) 1 0 0 1 (some 1))
      [Param.mk [73/10] (some [0])]] [[some [5]]] false none)
    (SGLD.mk [ParamGroup.mk (GroupCfg.mk (0:ℚ) 1 0 0 1 (some 1))
      [Param.mk [6] (some [0])]] [[some [5]]] false (some []))
    (by norm_num [SGLD.step, stepGroups, stepParams, sgldParamStep, sgldPreClamp,
      sgldClamp, dwOf, zipWith3, zeroDraw])
    0 (by decide) (by decide) 0 (by decide) (by decide) [0] (by decide)
    1 (by decide) (by norm_num)

/-- `countP` of a predicate on first components, over a zip that does
not truncate the first list. -/
theorem countP_zip_fst {β γ : Type} (p : β → Bool) :
    ∀ (l : List β) (l2 : List γ), l.length ≤ l2.length →
      (l.zip l2).countP (fun q => p q.1) = l.countP p
  | [], _, _ => by simp
  | _ :: xs, [], h => by simp at h
  | x :: xs, y :: ys, h => by
    simp only [List.zip_cons_cons, List.countP_cons,
      countP_zip_fst p xs ys (by simpa using h)]

/-- C5: `step()` rebuilds the noise log from scratch, whatever it held
before: afterwards it is the empty list when diagnostics are off; when
on, it holds exactly one tensor per gradient-carrying parameter, and
its `t`-th entry came from the `t`-th generator call of the step (mean
`0`), i.e. the entries appear in the order the parameters were
processed. -/
theorem c5_noise_log (rh : α → α) (draw : Nat → α → α → Nat → Tensor α)
    (o o' : SGLD α) (h : SGLD.step rh draw o = some o')
    (hal : o.state.length = o.param_groups.length)
    (hal2 : ∀ (j : Nat) (hj : j < o.param_groups.length) (hj2 : j < o.state.length),
      o.state[j].length = o.param_groups[j].params.length) :
    (o.save_noise = false → o'.noise = some []) ∧
    (o.save_noise = true → ∃ l, o'.noise = some l ∧
      l.length = SGLD.gradParamCount o ∧
      ∀ (t : Nat) (ht : t < l.length), ∃ sdev sz, l[t] = draw t 0 sdev sz) := by
  obtain ⟨gs, ns, k2, hsg, ho'⟩ := SGLD.step_inv rh draw o o' h
  obtain ⟨hnslen, -, hnsget⟩ := stepGroups_noise rh draw _ 0 gs ns k2 hsg
  have hmap : List.map (fun q => (q.1.params.zip q.2).countP (fun pr => pr.1.grad.isSome))
        (o.param_groups.zip o.state)
      = List.map (fun gr => (gr.params.filter (fun p => p.grad.isSome)).length)
        o.param_groups := by
    apply List.ext_getElem
    · rw [List.length_map, List.length_map, List.length_zip]
      omega
    · intro j hL hR
      have hjg : j < o.param_groups.length := by
        rw [List.length_map, List.length_zip] at hL
        omega
      have hjs : j < o.state.length := by
        rw [List.length_map, List.length_zip] at hL
        omega
      simp only [List.getElem_map, List.getElem_zip]
      rw [countP_zip_fst (fun p => p.grad.isSome) o.param_groups[j].params o.state[j]
        (le_of_eq (hal2 j hjg hjs).symm)]
      rw [List.countP_eq_length_filter]
  have hcount : ns.length = SGLD.gradParamCount o := by
    rw [hnslen, hmap, SGLD.gradParamCount]
  refine ⟨?_, ?_⟩
  · intro hsn
    rw [ho']
    simp [hsn]
  · intro hsn
    refine ⟨ns, by rw [ho']; simp [hsn], hcount, ?_⟩
    intro t ht
    simpa using hnsget t ht

/-- C5 witness: with diagnostics on and one of two parameters carrying
a gradient, the post-step log has exactly one entry, drawn at call
index `0`. -/
theorem c5_noise_log_witness :
    ∃ l, (SGLD.mk [ParamGroup.mk (GroupCfg.mk ((1:ℚ)/25) 1 0 0 1 none)
        [Param.mk [3] none, Param.mk [(199:ℚ)/50] (some [1])]] [[none, none]] true
        (some [[0]])).noise = some l ∧
      l.length = SGLD.gradParamCount (SGLD.mk
        [ParamGroup.mk (GroupCfg.mk ((1:ℚ)/25) 1 0 0 1 none)
          [Param.mk [3] none, Param.mk [4] (some [1])]] [[none, none]] true
        (some [[99]])) ∧
      ∀ (t : Nat) (ht : t < l.length), ∃ sdev sz, l[t] = zeroDraw t 0 sdev sz :=
  (c5_noise_log (fun x => x) zeroDraw
    (SGLD.mk [ParamGroup.mk (GroupCfg.mk ((1:ℚ)/25) 1 0 0 1 none)
      [Param.mk [3] none, Param.mk [4] (some [1])]] [[none, none]] true (some [[99]]))
    (SGLD.mk [ParamGroup.mk (GroupCfg.mk ((1:ℚ)/25) 1 0 0 1 none)
      [Param.mk [3] none, Param.mk [(199:ℚ)/50] (some [1])]] [[none, none]] true
      (some [[0]]))
    (by norm_num [SGLD.step, stepGroups, stepParams, sgldParamStep, sgldPreClamp,
      sgldClamp, dwOf, zipWith3, zeroDraw])
    (by decide)
    (by
      intro j hj hj2
      have hj0 : j = 0 := by
        simp at hj
        exact hj
      subst hj0
      rfl)).2 rfl

/-- C9 counterexample: the claim says the noise drawn in `step()`
matches the parameter (equivalently `dw`) in shape, device and dtype,
but the `torch.normal` call at lines 113-115 passes `size` and `device`
and no `dtype`: for a float64 parameter (so `dw` is float64) under the
process default dtype float32, the drawn tensor is float32 — size and
device are forwarded, the dtype conjunct fails. -/
theorem c9_noise_dtype_cex :
    (normalCallMeta DType.float32 (TensorMeta.mk 1 (0 : Nat) DType.float64)).dtype
        ≠ (TensorMeta.mk 1 (0 : Nat) DType.float64).dtype ∧
    (normalCallMeta DType.float32 (TensorMeta.mk 1 (0 : Nat) DType.float64)).size = 1 ∧
    (normalCallMeta DType.float32 (TensorMeta.mk 1 (0 : Nat) DType.float64)).device = 0 := by
  decide

/-- C9 (amended: dtype is the process default, not the parameter's):
the noise tensor drawn in `step()` for a gradient-carrying parameter
comes from a generator call with mean `0` and standard deviation
`noise_level`, requesting exactly the parameter's (= `dw`'s) element
count — so under the generator's size contract it has the parameter's
shape — and, at the metadata level, the call forwards `dw`'s size and
device while its dtype is the process default, whatever `dw`'s dtype
is. -/
theorem c9_noise_call_shape (rh : α → α) (draw : Nat → α → α → Nat → Tensor α)
    (hdraw : ∀ (k : Nat) (mu sd : α) (n : Nat), (draw k mu sd n).length = n)
    (o o' : SGLD α) (h : SGLD.step rh draw o = some o')
    (j : Nat) (hj : j < o.param_groups.length) (hj2 : j < o.state.length)
    (i : Nat) (hi : i < o.param_groups[j].params.length)
    (hi2 : i < o.state[j].length)
    (g a : Tensor α) (hg : o.param_groups[j].params[i].grad = some g)
    (ha : o.param_groups[j].cfg.localization = 0 ∨ o.state[j][i] = some a)
    (hlg : g.length = o.param_groups[j].params[i].data.length)
    (hla : a.length = o.param_groups[j].params[i].data.length)
    {Device : Type} (ddt : DType) (pm : TensorMeta Device) :
    (∃ (m : Nat) (v3 nz : Tensor α),
      sgldParamStep o.param_groups[j].cfg rh (draw m)
        o.param_groups[j].params[i].data g o.state[j][i] = some (v3, nz) ∧
      nz = draw m 0 o.param_groups[j].cfg.noise_level
        o.param_groups[j].params[i].data.length ∧
      nz.length = o.param_groups[j].params[i].data.length) ∧
    normalCallMeta ddt pm = TensorMeta.mk pm.size pm.device ddt := by
  refine ⟨?_, rfl⟩
  obtain ⟨m, v3, nz, hj3, hi3, hstep, -, -⟩ :=
    SGLD.step_get_some rh draw o o' h j hj hj2 i hi hi2 g hg
  obtain ⟨v2, hpc, -⟩ := sgldParamStep_inv _ rh _ _ g _ v3 nz hstep
  have hform := sgldPreClamp_eq o.param_groups[j].cfg rh (draw m)
    o.param_groups[j].params[i].data g a o.state[j][i] ha hlg hla
  rw [hform] at hpc
  obtain ⟨-, h2⟩ := Prod.mk.inj (Option.some.inj hpc)
  refine ⟨m, v3, nz, hstep, h2.symm, ?_⟩
  rw [← h2, hdraw]

/-- C9 witness: a single scalar parameter with a gradient: the noise
used is the generator's call at mean `0`, standard deviation `1`
(= `noise_level`), size `1`, and has the parameter's length; at the
metadata level a float64 `dw` on device `0` under default dtype float32
yields a draw of size `1`, device `0` and dtype float32. -/
theorem c9_noise_call_shape_witness :
    (∃ (m : Nat) (v3 nz : Tensor ℚ),
      sgldParamStep (GroupCfg.mk ((1:ℚ)/25) 1 0 0 1 none) (fun x => x) (zeroDraw m)
        [10] [2] (some [10]) = some (v3, nz) ∧
      nz = zeroDraw m 0 (1:ℚ) 1 ∧
      nz.length = 1) ∧
    normalCallMeta DType.float32 (TensorMeta.mk 1 (0 : Nat) DType.float64)
      = TensorMeta.mk 1 0 DType.float32 :=
  c9_noise_call_shape (fun x => x) zeroDraw (by intro k mu sd n; simp [zeroDraw])
    (SGLD.mk [ParamGroup.mk (GroupCfg.mk ((1:ℚ)/25) 1 0 0 1 none)
      [Param.mk [10] (some [2])]] [[some [10]]] true none)
    (SGLD.mk [ParamGroup.mk (GroupCfg.mk ((1:ℚ)/25) 1 0 0 1 none)
      [Param.mk [(249:ℚ)/25] (some [2])]] [[some [10]]] true (some [[0]]))
    (by norm_num [SGLD.step, stepGroups, stepParams, sgldParamStep, sgldPreClamp,
      sgldClamp, dwOf, zipWith3, zeroDraw])
    0 (by decide) (by decide) 0 (by decide) (by decide) [2] [10] (by decide)
    (Or.inl (by decide)) (by decide) (by decide)
    DType.float32 (TensorMeta.mk 1 (0 : Nat) DType.float64)

end SGLDModel
